import Mathlib

/-!
# Verification of the Jira bug report formatter (`jira_bug_summarizer.py`)

A shallow embedding of the report-formatting and data-normalization pipeline
of the repository's single source file.  Pure Python functions become Lean
functions; the two effectful collaborators (the wall clock and the external
summarization service) become explicit parameters (`now_us : Int`, a
microsecond UTC timestamp, and `service : String → Except String String`).

Python string primitives used by the source (`str.split`, `str.strip`,
`str.ljust`, `str.rjust`, slicing `s[:n]`, `str.replace`) are modelled
character-for-character on Lean `String`.
-/

deriving instance DecidableEq for Except

namespace JiraWf

/-- Python `str.ljust(w)`: pad on the right with spaces to width `w`
(identity when the string is already at least `w` characters). -/
def pyLjust (s : String) (w : Nat) : String :=
  s ++ String.mk (List.replicate (w - s.length) ' ')

/-- Python `str.rjust(w)`: pad on the left with spaces to width `w`. -/
def pyRjust (s : String) (w : Nat) : String :=
  String.mk (List.replicate (w - s.length) ' ') ++ s

/-- Python slicing `s[:n]` (by code point, as in Python). -/
def pyTake (s : String) (n : Nat) : String :=
  String.mk (s.data.take n)

/-- The ASCII whitespace characters recognized by Python's `str.split()` /
`str.strip()` (the source only ever meets ASCII whitespace). -/
def isPyWS (c : Char) : Bool :=
  c = ' ' || c = '\t' || c = '\n' || c = '\r' || c = '\x0b' || c = '\x0c'

/-- Python `str.strip()`: drop leading and trailing whitespace. -/
def pyStrip (s : String) : String :=
  String.mk (((s.data.dropWhile isPyWS).reverse.dropWhile isPyWS).reverse)

/-- Accumulator loop for `pySplit`: `cur` holds the current word reversed. -/
def pySplitAux : List Char → List Char → List String
  | [], [] => []
  | [], cur => [String.mk cur.reverse]
  | c :: cs, cur =>
    if isPyWS c then
      match cur with
      | [] => pySplitAux cs []
      | _ => String.mk cur.reverse :: pySplitAux cs []
    else
      pySplitAux cs (c :: cur)

/-- Python `str.split()` with no argument: split on runs of whitespace,
discarding empty pieces. -/
def pySplit (s : String) : List String :=
  pySplitAux s.data []

/-!
## Data model

`structure_bug_data` (source lines 206-277) produces a nested dict; the
renderer reads the fields below.  Optional values (`None` in Python) are
`Option`; Python truthiness of a string field is `s ≠ ""`.
-/

structure TeamInfo where
  team_name : Option String
  components : List String
  labels : List String
  deriving Repr, DecidableEq

structure Aging where
  created_date : Option String
  days_open : Int
  deriving Repr, DecidableEq

structure Person where
  name : String
  email : Option String
  deriving Repr, DecidableEq

structure CommentRec where
  author : String
  created : String
  body : String
  deriving Repr, DecidableEq

structure CommentsInfo where
  count : Nat
  summary : String
  details : List CommentRec
  deriving Repr, DecidableEq

structure BugRecord where
  bug_key : String
  summary : String
  status : String
  priority : String
  bug_url : String
  aging : Aging
  last_updated : Option String
  team : TeamInfo
  reporter : Person
  assignee : Person
  comments : CommentsInfo
  deriving Repr, DecidableEq

/-!
## Priority sorter (`sort_bugs_by_priority`, source lines 327-338)
-/

/-- The fixed priority dict of `sort_bugs_by_priority`. -/
def priority_order : List (String × Nat) :=
  [("Highest", 1), ("High", 2), ("Medium", 3), ("Low", 4), ("Lowest", 5),
   ("Unknown", 6)]

/-- Python `dict.get(k, default)` on an association list with unique keys. -/
def dictGetD (d : List (String × Nat)) (k : String) (dflt : Nat) : Nat :=
  match d.find? (fun p => k = p.1) with
  | some p => p.2
  | none => dflt

/-- The sort key of `sort_bugs_by_priority`:
`priority_order.get(bug['priority'], 6)`. -/
def priorityRank (b : BugRecord) : Nat :=
  dictGetD priority_order b.priority 6

/-- Insert `x` into a list of elements that all came after `x` in the input:
`x` goes before every element of equal rank (the tie behavior of a stable
sort when folding from the head). -/
def insertByRank (rank : BugRecord → Nat) (x : BugRecord) :
    List BugRecord → List BugRecord
  | [] => [x]
  | y :: ys =>
    if rank x ≤ rank y then x :: y :: ys else y :: insertByRank rank x ys

/-- Stable insertion sort by `rank`.  Python's `sorted` is specified to be a
stable sort, and the output of a stable sort by a given key is unique, so
this models `sorted(all_bug_data, key=...)` exactly. -/
def sortByRank (rank : BugRecord → Nat) : List BugRecord → List BugRecord
  | [] => []
  | x :: xs => insertByRank rank x (sortByRank rank xs)

/-- `sort_bugs_by_priority` (source lines 327-338). -/
def sort_bugs_by_priority (all_bug_data : List BugRecord) : List BugRecord :=
  sortByRank priorityRank all_bug_data

/-!
## Timestamps

The source parses timestamps with `datetime.fromisoformat` after
`s.replace('Z', '+00:00')`, subtracts them from `datetime.now(timezone.utc)`
and takes `.days` of the difference (floor of the elapsed time in days).

`datetime.fromisoformat` is CPython library code; it is modelled here on the
grammar `YYYY-MM-DD[<sep>HH[:MM[:SS[.f{1,6}]]][(+|-)HH[:MM | MM]]]` with the
library's range checks (month 1-12, day valid for the month and leap year,
hour ≤ 23, minute/second ≤ 59, offset within ±23:59, year ≥ 1), `<sep>` any
single character.  A string without an offset parses to a *naive* datetime;
subtracting a naive datetime from `datetime.now(timezone.utc)` raises
`TypeError`, which `calculate_bug_aging` catches, returning 0.
-/

/-- One pass of `str.replace` over a character list; the fuel argument (the
input length) only makes the recursion structural — each step consumes at
least one character, so the fuel never runs out before the list does. -/
def replaceListAux (pat new : List Char) : Nat → List Char → List Char
  | _, [] => []
  | 0, l => l
  | fuel + 1, c :: cs =>
    if pat ≠ [] ∧ (c :: cs).take pat.length = pat then
      new ++ replaceListAux pat new fuel (cs.drop (pat.length - 1))
    else
      c :: replaceListAux pat new fuel cs

/-- Python `str.replace(old, new)` for a nonempty `old` (all occurrences,
scanned left to right, non-overlapping); the source only uses `old = "Z"`. -/
def pyReplace (s old new : String) : String :=
  String.mk (replaceListAux old.data new.data s.data.length s.data)

/-- The result of `datetime.fromisoformat`: a proleptic-Gregorian civil
datetime with microsecond precision and an optional UTC offset in minutes
(`none` = naive). -/
structure PyDateTime where
  year : Nat
  month : Nat
  day : Nat
  hour : Nat
  minute : Nat
  second : Nat
  microsecond : Nat
  tzOffsetMinutes : Option Int
  deriving Repr, DecidableEq

/-- Value of a decimal digit character. -/
def digVal (c : Char) : Option Nat :=
  if c.isDigit then some (c.toNat - 48) else none

/-- Read exactly two decimal digits. -/
def read2 : List Char → Option (Nat × List Char)
  | a :: b :: rest =>
    match digVal a, digVal b with
    | some x, some y => some (10 * x + y, rest)
    | _, _ => none
  | _ => none

/-- Read exactly four decimal digits. -/
def read4 : List Char → Option (Nat × List Char)
  | a :: b :: c :: d :: rest =>
    match digVal a, digVal b, digVal c, digVal d with
    | some w, some x, some y, some z =>
      some (1000 * w + 100 * x + 10 * y + z, rest)
    | _, _, _, _ => none
  | _ => none

/-- Take a maximal run of decimal digits. -/
def takeDigits : List Char → List Nat × List Char
  | [] => ([], [])
  | c :: cs =>
    match digVal c with
    | some d =>
      let (ds, rest) := takeDigits cs
      (d :: ds, rest)
    | none => ([], c :: cs)

/-- Convert 1-6 fractional-second digits to microseconds. -/
def fracToMicro (ds : List Nat) : Option Nat :=
  if ds.length = 0 ∨ 6 < ds.length then none
  else some ((ds.foldl (fun a d => 10 * a + d) 0) * 10 ^ (6 - ds.length))

/-- A UTC-offset suffix after the sign: `HH`, `HH:MM` or `HHMM`; must reach
the end of the string.  Returns (hours, minutes). -/
def readOffsetTail (cs : List Char) : Option (Nat × Nat) :=
  match read2 cs with
  | none => none
  | some (hh, rest) =>
    match rest with
    | [] => some (hh, 0)
    | ':' :: rest2 =>
      match read2 rest2 with
      | some (mm, []) => some (hh, mm)
      | _ => none
    | _ =>
      match read2 rest with
      | some (mm, []) => some (hh, mm)
      | _ => none

/-- A UTC-offset suffix `(+|-)HH[[:]MM]`, in minutes, range-checked. -/
def readOffset (cs : List Char) : Option Int :=
  match cs with
  | '+' :: rest =>
    (readOffsetTail rest).bind fun p =>
      if p.1 ≤ 23 ∧ p.2 ≤ 59 then some ((p.1 * 60 + p.2 : Nat) : Int) else none
  | '-' :: rest =>
    (readOffsetTail rest).bind fun p =>
      if p.1 ≤ 23 ∧ p.2 ≤ 59 then some (-((p.1 * 60 + p.2 : Nat) : Int))
      else none
  | _ => none

/-- The time-of-day part `HH[:MM[:SS[.frac]]]` with optional trailing
offset; must consume the whole remainder of the string.
Returns (hour, minute, second, microsecond, offset). -/
def readTimeTail (cs : List Char) : Option (Nat × Nat × Nat × Nat × Option Int) :=
  match read2 cs with
  | none => none
  | some (hh, rest) =>
    match rest with
    | [] => some (hh, 0, 0, 0, none)
    | ':' :: r2 =>
      match read2 r2 with
      | none => none
      | some (mi, r3) =>
        match r3 with
        | [] => some (hh, mi, 0, 0, none)
        | ':' :: r4 =>
          match read2 r4 with
          | none => none
          | some (ss, r5) =>
            match r5 with
            | [] => some (hh, mi, ss, 0, none)
            | '.' :: r6 =>
              let p := takeDigits r6
              match fracToMicro p.1 with
              | none => none
              | some us =>
                match p.2 with
                | [] => some (hh, mi, ss, us, none)
                | r7 => (readOffset r7).map fun off => (hh, mi, ss, us, some off)
            | _ => (readOffset r5).map fun off => (hh, mi, ss, 0, some off)
        | _ => (readOffset r3).map fun off => (hh, mi, 0, 0, some off)
    | _ => (readOffset rest).map fun off => (hh, 0, 0, 0, some off)

/-- Gregorian leap-year rule. -/
def isLeapYear (y : Nat) : Bool :=
  (y % 4 = 0 && y % 100 ≠ 0) || y % 400 = 0

/-- Days in a month of the proleptic Gregorian calendar. -/
def daysInMonth (y m : Nat) : Nat :=
  if m = 2 then (if isLeapYear y then 29 else 28)
  else if m = 4 ∨ m = 6 ∨ m = 9 ∨ m = 11 then 30
  else 31

/-- `datetime.fromisoformat` (modelled; see the section comment). -/
def datetime_fromisoformat (s : String) : Option PyDateTime :=
  match read4 s.data with
  | none => none
  | some (y, rest) =>
    match rest with
    | '-' :: r2 =>
      match read2 r2 with
      | none => none
      | some (mo, r3) =>
        match r3 with
        | '-' :: r4 =>
          match read2 r4 with
          | none => none
          | some (d, r5) =>
            let valid :=
              1 ≤ y ∧ 1 ≤ mo ∧ mo ≤ 12 ∧ 1 ≤ d ∧ d ≤ daysInMonth y mo
            match r5 with
            | [] =>
              if valid then
                some ⟨y, mo, d, 0, 0, 0, 0, none⟩
              else none
            | _sep :: r6 =>
              match readTimeTail r6 with
              | none => none
              | some (hh, mi, ss, us, off) =>
                if valid ∧ hh ≤ 23 ∧ mi ≤ 59 ∧ ss ≤ 59 then
                  some ⟨y, mo, d, hh, mi, ss, us, off⟩
                else none
        | _ => none
    | _ => none

/-- Days between a proleptic-Gregorian civil date and 1970-01-01
(Howard Hinnant's `days_from_civil`, specialized to year ≥ 1). -/
def daysFromCivil (y m d : Nat) : Int :=
  let y2 := y - (if m ≤ 2 then 1 else 0)
  let era := y2 / 400
  let yoe := y2 % 400
  let doy := (153 * (if 2 < m then m - 3 else m + 9) + 2) / 5 + (d - 1)
  let doe := yoe * 365 + yoe / 4 - yoe / 100 + doy
  ((era * 146097 + doe : Nat) : Int) - 719468

/-- Microseconds in a day. -/
def usPerDay : Int := 86400000000

/-- An aware `PyDateTime` as microseconds since the Unix epoch. -/
def pyTimestampUs (t : PyDateTime) : Int :=
  daysFromCivil t.year t.month t.day * usPerDay
    + ((t.hour * 3600 + t.minute * 60 + t.second) * 1000000 + t.microsecond : Nat)
    - (match t.tzOffsetMinutes with
       | some off => off * 60000000
       | none => 0)

/-- `calculate_bug_aging` (source lines 157-167), with the current UTC
instant `now_us` (microseconds since the epoch) made explicit.
`timedelta.days` is the floor of the difference in days; Python's floor
division is `Int.fdiv`.  A naive parse result (no offset) makes
`now - created` raise `TypeError`, caught by the bare handler → 0; a parse
failure is likewise caught → 0. -/
def calculate_bug_aging (created_date : String) (now_us : Int) : Int :=
  match datetime_fromisoformat (pyReplace created_date "Z" "+00:00") with
  | none => 0
  | some t =>
    match t.tzOffsetMinutes with
    | none => 0
    | some _ => Int.fdiv (now_us - pyTimestampUs t) usPerDay

/-- `strftime("%Y-%m-%d")` of a parsed datetime (zero-padded fields). -/
def strftimeYMD (t : PyDateTime) : String :=
  (if t.year < 10 then "000" else if t.year < 100 then "00"
   else if t.year < 1000 then "0" else "") ++ toString t.year ++ "-" ++
  (if t.month < 10 then "0" else "") ++ toString t.month ++ "-" ++
  (if t.day < 10 then "0" else "") ++ toString t.day

/-- The Last Update cell of the overview table (source lines 396-402):
`"Unknown   "` when the field is absent or falsy; the parsed date as
`YYYY-MM-DD` when `fromisoformat` succeeds; otherwise (the `except` branch)
the first 10 characters of the raw value. -/
def lastUpdatedCell (lu : Option String) : String :=
  match lu with
  | none => "Unknown   "
  | some s =>
    if s = "" then "Unknown   "
    else
      match datetime_fromisoformat (pyReplace s "Z" "+00:00") with
      | some t => strftimeYMD t
      | none => pyTake s 10


/-!
## Comment extraction (`get_bug_comments` / `_extract_text_from_adf`,
source lines 117-155)

A raw comment body is JSON: a plain string, an ADF document (a dict), or
something else.  `extract_content` walks dicts and lists: a dict with
`type == 'text'` contributes its `text` field (defaulted to `""`, and any
`content` it might also carry is skipped by the `elif`); a dict with a
`content` key recurses over the child list; anything else contributes
nothing.
-/

/-- A JSON node as classified by `extract_content` (source lines 143-152). -/
inductive AdfNode where
  /-- A dict with `type == 'text'`; `text` is `node.get('text', '')`. -/
  | textNode (text : String) : AdfNode
  /-- A dict without `type == 'text'` but with a `content` list. -/
  | containerNode (content : List AdfNode) : AdfNode
  /-- A dict with neither. -/
  | otherNode : AdfNode
  /-- A JSON array. -/
  | arrayNode (items : List AdfNode) : AdfNode
  /-- Any non-dict, non-list value. -/
  | scalarNode : AdfNode
  deriving Repr

mutual
/-- `extract_content` (source lines 143-152): `acc` is the `text_parts`
list, appended to in traversal order. -/
def extract_content : AdfNode → List String → List String
  | .textNode s, acc => acc ++ [s]
  | .containerNode cs, acc => extract_content_list cs acc
  | .otherNode, acc => acc
  | .arrayNode items, acc => extract_content_list items acc
  | .scalarNode, acc => acc

/-- The `for child in node['content']` / `for item in node` loops. -/
def extract_content_list : List AdfNode → List String → List String
  | [], acc => acc
  | n :: ns, acc => extract_content_list ns (extract_content n acc)
end

/-- Python `' '.join(parts)`. -/
def pyJoinSpace : List String → String
  | [] => ""
  | [w] => w
  | w :: ws => w ++ " " ++ pyJoinSpace ws

/-- `_extract_text_from_adf` (source lines 139-155). -/
def extract_text_from_adf (adf_body : AdfNode) : String :=
  pyJoinSpace (extract_content adf_body [])

mutual
/-- Specification-side pre-order leaf collection: the `text` of every
`type == 'text'` node, in depth-first pre-order. -/
def adfLeaves : AdfNode → List String
  | .textNode s => [s]
  | .containerNode cs => adfLeavesList cs
  | .otherNode => []
  | .arrayNode items => adfLeavesList items
  | .scalarNode => []

/-- Pre-order leaf collection over a child list. -/
def adfLeavesList : List AdfNode → List String
  | [] => []
  | n :: ns => adfLeaves n ++ adfLeavesList ns
end

/-- The comment body value as seen by `get_bug_comments`
(source lines 120-130). -/
inductive RawBody where
  /-- `comment.raw` has no `body` key (or no `raw`): `body_text` stays "". -/
  | absent : RawBody
  /-- A plain-string body. -/
  | str (s : String) : RawBody
  /-- A dict body: ADF. -/
  | adf (d : AdfNode) : RawBody
  /-- Any other JSON type: `body_text` stays "". -/
  | other : RawBody
  deriving Repr

/-- `body_text` as computed by `get_bug_comments` (source lines 122-130). -/
def bodyText : RawBody → String
  | .absent => ""
  | .str s => s
  | .adf d => extract_text_from_adf d
  | .other => ""

/-!
## Comment summarization (`summarize_comments`, source lines 279-325)

The AWS Bedrock call is the external collaborator: it becomes the function
parameter `service`, mapping the prompt to either a summary (`Except.ok`)
or any failure (`Except.error`, covering the broad `except` handler).
-/

/-- One comment as rendered into the prompt (source line 286). -/
def commentEntry (c : CommentRec) : String :=
  "**" ++ c.author ++ "** (" ++ c.created ++ "):\n" ++ c.body

/-- Python `sep.join(parts)` for an arbitrary separator. -/
def pyJoinWith (sep : String) : List String → String
  | [] => ""
  | [w] => w
  | w :: ws => w ++ sep ++ pyJoinWith sep ws

/-- The prompt string (source lines 285-301). -/
def buildPrompt (bug_key : String) (comments : List CommentRec) : String :=
  "You are analyzing Jira bug comments. Summarize the following comments for bug "
    ++ bug_key ++ ".\n\nFocus on:\n- Root cause identified\n- Solutions attempted\n"
    ++ "- Current status/blockers\n- Action items\n\nComments:\n"
    ++ pyJoinWith "\n\n" (comments.map commentEntry)
    ++ "\n\nProvide a concise summary in 3-5 bullet points."

/-- `summarize_comments` (source lines 279-325). -/
def summarize_comments (service : String → Except String String)
    (bug_key : String) (comments : List CommentRec) : String :=
  if comments = [] then "No comments available."
  else
    match service (buildPrompt bug_key comments) with
    | .ok text => text
    | .error _ => "Failed to generate summary."

/-- The per-bug summarization step of `run` (source lines 544-552), over a
list of (key, comments) pairs. -/
def processBugs (service : String → Except String String)
    (bugs : List (String × List CommentRec)) : List String :=
  bugs.map fun b => summarize_comments service b.1 b.2

/-!
## Team display (`format_team_info`, source lines 340-369)
-/

/-- Python truthiness of the optional `team_name` value. -/
def teamNameTruthy : Option String → Bool
  | some n => n ≠ ""
  | none => false

/-- The 18-char/ellipsis truncation used twice in `format_team_info`. -/
def truncate18 (team_str : String) : String :=
  if 18 < team_str.length then pyTake team_str 15 ++ "..." else team_str

/-- `format_team_info` (source lines 340-369).  Extending `team_parts` by a
falsy (empty) `components` or `labels` list is a no-op, so the two guarded
`extend` calls amount to the plain concatenation below. -/
def format_team_info (team_data : TeamInfo) : String :=
  if teamNameTruthy team_data.team_name then
    truncate18 (team_data.team_name.getD "")
  else
    let team_parts := team_data.components ++ team_data.labels.take 2
    if team_parts = [] then "N/A"
    else truncate18 (pyJoinWith ", " team_parts)

/-- The Teams cell of the overview table (source line 420):
`format_team_info(bug['team'])[:18].ljust(18)`. -/
def teamsCell (team_data : TeamInfo) : String :=
  pyLjust (pyTake (format_team_info team_data) 18) 18

/-!
## Overview table rows (source lines 394-425)
-/

/-- Aging indicator (source lines 404-413). -/
def ageEmoji (days_open : Int) : String :=
  if days_open ≤ 7 then "🟢"
  else if days_open ≤ 30 then "🟡"
  else if days_open ≤ 90 then "🟠"
  else "🔴"

/-- One row of the overview table (source lines 394-424), for 1-based row
number `idx`. -/
def overviewRow (idx : Nat) (bug : BugRecord) : String :=
  let last_updated_str := lastUpdatedCell bug.last_updated
  let days_open := bug.aging.days_open
  let ticket_id := pyLjust (pyTake bug.bug_key 11) 11
  let days_str :=
    pyLjust (pyTake (ageEmoji days_open ++ " " ++ pyRjust (toString days_open) 3) 9) 9
  let status := pyLjust (pyTake bug.status 8) 8
  let priority := pyLjust (pyTake bug.priority 8) 8
  let teams := teamsCell bug.team
  let assignee := pyLjust (pyTake bug.assignee.name 14) 14
  "│ " ++ pyRjust (toString idx) 2 ++ " │ " ++ ticket_id ++ " │ " ++ days_str ++
    " │ " ++ last_updated_str ++ " │ " ++ status ++ " │ " ++ priority ++ " │ " ++
    teams ++ " │ " ++ assignee ++ " │\n"

/-!
## Comment-summary table (source lines 433-479)
-/

/-- The word-wrap loop of the comment-summary table (source lines 449-461):
greedy accumulation into `current_line` (which always carries a trailing
space once nonempty), flushing `current_line.strip().ljust(max_width)`. -/
def wrapLoop (max_width : Nat) : List String → String → List String
  | [], current_line =>
    if current_line ≠ "" then [pyLjust (pyStrip current_line) max_width] else []
  | word :: ws, current_line =>
    if current_line.length + word.length + 1 ≤ max_width then
      wrapLoop max_width ws (current_line ++ word ++ " ")
    else
      pyLjust (pyStrip current_line) max_width ::
        wrapLoop max_width ws (word ++ " ")

/-- The wrapped lines of one summary (source lines 448-461): the loop run
over `summary_text.split()` starting from the empty current line. -/
def wrapSummary (summary_text : String) : List String :=
  wrapLoop 100 (pySplit summary_text) ""

/-- The lines actually rendered for one bug (source lines 463-465): the
placeholder replaces an empty wrap result. -/
def summaryLines (summary_text : String) : List String :=
  match wrapSummary summary_text with
  | [] => [pyLjust "No summary available" 100]
  | lines => lines

/-- The block of table rows for one bug in the comment-summary table
(source lines 440-472). -/
def summaryRowBlock (idx : Nat) (bug : BugRecord) : String :=
  let ticket_id := pyLjust (pyTake bug.bug_key 11) 11
  let lines := summaryLines bug.comments.summary
  "│ " ++ pyRjust (toString idx) 2 ++ " │ " ++ ticket_id ++ " │ " ++
    lines.headD "" ++ " │\n" ++
  String.join (lines.tail.map fun line => "│    │             │ " ++ line ++ " │\n")

/-!
## Statistics footer (source lines 487-502)
-/

/-- `critical_age` (source line 488): bugs with `days_open > 90`. -/
def critical_age (l : List BugRecord) : Nat :=
  l.countP (fun b => decide (90 < b.aging.days_open))

/-- `aging` (source line 489): bugs with `30 < days_open <= 90`. -/
def aging (l : List BugRecord) : Nat :=
  l.countP (fun b => decide (30 < b.aging.days_open ∧ b.aging.days_open ≤ 90))

/-- `active` (source line 490): bugs with `7 < days_open <= 30`. -/
def active (l : List BugRecord) : Nat :=
  l.countP (fun b => decide (7 < b.aging.days_open ∧ b.aging.days_open ≤ 30))

/-- `recent` (source line 491): bugs with `days_open <= 7`. -/
def recent (l : List BugRecord) : Nat :=
  l.countP (fun b => decide (b.aging.days_open ≤ 7))

/-- The statistics footer string (source lines 493-502). -/
def statsFooter (l : List BugRecord) : String :=
  "\n*📊 STATISTICS*\n" ++
  "━━━━━━━━━━━━━━━━━━━━━━━━━━━━━━━━━━━━━━━━━━━━━━━━━━━━━━━━━━━━\n" ++
  "  • Total Bugs: *" ++ toString l.length ++ "*\n" ++
  "  • 🔴 Critical Age (90+ days): *" ++ toString (critical_age l) ++ "*\n" ++
  "  • 🟠 Aging (31-90 days): *" ++ toString (aging l) ++ "*\n" ++
  "  • 🟡 Active (8-30 days): *" ++ toString (active l) ++ "*\n" ++
  "  • 🟢 Recent (0-7 days): *" ++ toString (recent l) ++ "*\n" ++
  "━━━━━━━━━━━━━━━━━━━━━━━━━━━━━━━━━━━━━━━━━━━━━━━━━━━━━━━━━━━━\n"

/-!
## Full report (`format_slack_table`, source lines 371-505)

`datetime.now(timezone.utc).strftime("%Y-%m-%d %H:%M UTC")` in the title is
presentational; it enters the embedding as the string parameter `nowStr`.
-/

/-- One line of the links section (source line 484). -/
def linkLine (idx : Nat) (bug : BugRecord) : String :=
  "  " ++ toString idx ++ ". <" ++ bug.bug_url ++ "|" ++ bug.bug_key ++ "> - " ++
    pyTake bug.summary 60 ++ (if 60 < bug.summary.length then "..." else "") ++ "\n"

/-- `format_slack_table` (source lines 371-505). -/
def format_slack_table (all_bug_data : List BugRecord) (nowStr : String) : String :=
  if all_bug_data = [] then "No bugs found."
  else
    let sorted := sort_bugs_by_priority all_bug_data
    let message :=
      "*🐛 JIRA BUG SUMMARY REPORT*\n_Report generated on " ++ nowStr ++ "_\n\n" ++
      "```\n" ++
      "┌────┬─────────────┬───────────┬─────────────┬──────────┬──────────┬────────────────────┬────────────────┐\n" ++
      "│ #  │ Ticket ID   │ Days Open │ Last Update │ Status   │ Priority │ Teams              │ Assignee       │\n" ++
      "├────┼─────────────┼───────────┼─────────────┼──────────┼──────────┼────────────────────┼────────────────┤" ++
      "\n" ++
      String.join (sorted.enum.map fun p => overviewRow (p.1 + 1) p.2) ++
      "└────┴─────────────┴───────────┴─────────────┴──────────┴──────────┴────────────────────┴────────────────┘\n```\n" ++
      "\n*💬 COMMENT SUMMARIES*\n" ++
      "```\n" ++
      "┌────┬─────────────┬────────────────────────────────────────────────────────────────────────────────────────────────────────┐\n" ++
      "│ #  │ Ticket ID   │ AI-Generated Comment Summary                                                                       │\n" ++
      "├────┼─────────────┼────────────────────────────────────────────────────────────────────────────────────────────────────┤\n" ++
      String.join (sorted.enum.map fun p =>
        summaryRowBlock (p.1 + 1) p.2 ++
        (if p.1 + 1 < sorted.length then
          "├────┼─────────────┼────────────────────────────────────────────────────────────────────────────────────────────────────┤\n"
         else "")) ++
      "└────┴─────────────┴────────────────────────────────────────────────────────────────────────────────────────────────────┘\n" ++
      "```\n" ++
      "\n*🔗 Links to Tickets:*\n" ++
      String.join (sorted.enum.map fun p => linkLine (p.1 + 1) p.2) ++
      statsFooter sorted
    pyStrip message

/-!
## Word-wrap analysis (claim C1)

`current_line` in the wrap loop is always the concatenation of the words it
holds, each followed by one space: `joinSp acc`.  `wrapLoopW` re-expresses
`wrapLoop` over that word list; the two agree (`wrapLoop_eq_wrapLoopW`),
and the line-width and word-preservation properties are proved on the word
level.
-/

/-- A word as produced by `str.split()`: nonempty and whitespace-free. -/
def goodWord (w : String) : Prop :=
  w.data ≠ [] ∧ ∀ c ∈ w.data, isPyWS c = false

/-- All words of a list are split-produced words. -/
def goodWords (ws : List String) : Prop :=
  ∀ w ∈ ws, goodWord w

/-- The value of `current_line` holding the words `ws`: each word followed
by one space. -/
def joinSp (ws : List String) : String :=
  ws.foldl (fun s w => s ++ w ++ " ") ""

/-- `wrapLoop` with `current_line` replaced by the list of words it holds. -/
def wrapLoopW (max_width : Nat) : List String → List String → List String
  | [], acc => if acc ≠ [] then [pyLjust (pyJoinSpace acc) max_width] else []
  | w :: ws, acc =>
    if (joinSp acc).length + w.length + 1 ≤ max_width then
      wrapLoopW max_width ws (acc ++ [w])
    else
      pyLjust (pyJoinSpace acc) max_width :: wrapLoopW max_width ws [w]

/-- The priority map as a case split, for stating the fixed ranking. -/
def rankSpec (p : String) : Nat :=
  if p = "Highest" then 1
  else if p = "High" then 2
  else if p = "Medium" then 3
  else if p = "Low" then 4
  else if p = "Lowest" then 5
  else 6

/-!
## Claim theorems
-/

theorem insertByRank_perm (rank : BugRecord → Nat) (x : BugRecord)
    (l : List BugRecord) : (insertByRank rank x l).Perm (x :: l) := by
  induction l with
  | nil => simp [insertByRank]
  | cons y ys ih =>
    simp only [insertByRank]
    split
    · exact List.Perm.refl _
    · exact (ih.cons y).trans (List.Perm.swap x y ys)

theorem sortByRank_perm (rank : BugRecord → Nat) (l : List BugRecord) :
    (sortByRank rank l).Perm l := by
  induction l with
  | nil => simp [sortByRank]
  | cons x xs ih =>
    exact (insertByRank_perm rank x (sortByRank rank xs)).trans (ih.cons x)

theorem insertByRank_sorted (rank : BugRecord → Nat) (x : BugRecord)
    (l : List BugRecord)
    (h : l.Pairwise (fun a b => rank a ≤ rank b)) :
    (insertByRank rank x l).Pairwise (fun a b => rank a ≤ rank b) := by
  induction l with
  | nil => simp [insertByRank]
  | cons y ys ih =>
    rcases List.pairwise_cons.1 h with ⟨hy, hys⟩
    simp only [insertByRank]
    split
    · rename_i hle
      refine List.pairwise_cons.2 ⟨?_, h⟩
      intro b hb
      rcases List.mem_cons.1 hb with rfl | hb'
      · exact hle
      · exact Nat.le_trans hle (hy b hb')
    · rename_i hgt
      refine List.pairwise_cons.2 ⟨?_, ih hys⟩
      intro b hb
      rcases List.mem_cons.1 ((insertByRank_perm rank x ys).mem_iff.1 hb) with rfl | hb'
      · omega
      · exact hy b hb'

theorem sortByRank_sorted (rank : BugRecord → Nat) (l : List BugRecord) :
    (sortByRank rank l).Pairwise (fun a b => rank a ≤ rank b) := by
  induction l with
  | nil => simp [sortByRank]
  | cons x xs ih => exact insertByRank_sorted rank x _ ih

/-- Stability of one insertion step: `x` lands before every element of its
own rank, so the rank-`k` elements of the result are `x` (when of rank `k`)
followed by those of `l`, in order. -/
theorem insertByRank_filter_rank (rank : BugRecord → Nat) (x : BugRecord)
    (l : List BugRecord) (k : Nat) :
    (insertByRank rank x l).filter (fun b => rank b == k) =
      if rank x = k then x :: l.filter (fun b => rank b == k)
      else l.filter (fun b => rank b == k) := by
  induction l with
  | nil =>
    by_cases hk : rank x = k
    · simp [insertByRank, hk]
    · simp [insertByRank, hk]
  | cons y ys ih =>
    simp only [insertByRank]
    split
    · rename_i hle
      by_cases hk : rank x = k
      · rw [if_pos hk, List.filter_cons_of_pos (by simp [hk])]
      · rw [if_neg hk, List.filter_cons_of_neg (by simp [hk])]
    · rename_i hgt
      have hylt : rank y < rank x := by omega
      by_cases hk : rank x = k
      · have hyk : rank y ≠ k := by omega
        rw [if_pos hk,
          List.filter_cons_of_neg (by simp [hyk]),
          List.filter_cons_of_neg (by simp [hyk]),
          ih, if_pos hk]
      · rw [if_neg hk] at ih ⊢
        by_cases hyk : rank y = k
        · rw [List.filter_cons_of_pos (by simp [hyk]),
            List.filter_cons_of_pos (by simp [hyk]), ih]
        · rw [List.filter_cons_of_neg (by simp [hyk]),
            List.filter_cons_of_neg (by simp [hyk]),
            ih]

/-- Stability of the sort: for every rank value `k`, the sorted list's
elements of rank `k` are exactly the input's elements of rank `k`, in the
same order. -/
theorem sortByRank_filter_rank (rank : BugRecord → Nat) (l : List BugRecord)
    (k : Nat) :
    (sortByRank rank l).filter (fun b => rank b == k) =
      l.filter (fun b => rank b == k) := by
  induction l with
  | nil => simp [sortByRank]
  | cons x xs ih =>
    have h := insertByRank_filter_rank rank x (sortByRank rank xs) k
    by_cases hk : rank x = k
    · rw [sortByRank, h, if_pos hk, ih,
        List.filter_cons_of_pos (by simp [hk])]
    · rw [sortByRank, h, if_neg hk, ih,
        List.filter_cons_of_neg (by simp [hk])]

example : daysFromCivil 1970 1 1 = 0 := by decide
example : daysFromCivil 1969 12 31 = -1 := by decide
example : daysFromCivil 2000 3 1 = 11017 := by decide
example : daysFromCivil 2024 1 15 = 19737 := by decide

example :
    datetime_fromisoformat "2024-01-15T10:30:00.123+00:00" =
      some ⟨2024, 1, 15, 10, 30, 0, 123000, some 0⟩ := by decide

example :
    datetime_fromisoformat "2024-01-15T10:30:00.123456-05:30" =
      some ⟨2024, 1, 15, 10, 30, 0, 123456, some (-330)⟩ := by decide

example : datetime_fromisoformat "2024-02-30T10:30:00" = none := by decide

example :
    datetime_fromisoformat "2024-02-29" = some ⟨2024, 2, 29, 0, 0, 0, 0, none⟩ := by
  decide

example :
    calculate_bug_aging "2024-01-14T23:00:00Z" (19737 * usPerDay) = 0 := by
  decide

example :
    calculate_bug_aging "2024-01-13T23:00:00Z" (19737 * usPerDay) = 1 := by
  decide

example : calculate_bug_aging "not a date" 0 = 0 := by decide

example : lastUpdatedCell (some "2024-01-15T10:30:00.123+0000") = "2024-01-15" := by
  decide

example : lastUpdatedCell (some "garbage-value") = "garbage-va" := by decide

theorem priorityRank_eq_rankSpec (b : BugRecord) :
    priorityRank b = rankSpec b.priority := by
  unfold priorityRank dictGetD priority_order rankSpec
  by_cases h1 : b.priority = "Highest" <;>
    by_cases h2 : b.priority = "High" <;>
    by_cases h3 : b.priority = "Medium" <;>
    by_cases h4 : b.priority = "Low" <;>
    by_cases h5 : b.priority = "Lowest" <;>
    by_cases h6 : b.priority = "Unknown" <;>
    simp_all [List.find?]

/-- C4: `sort_bugs_by_priority` orders records by non-decreasing rank under
the fixed map Highest=1, High=2, Medium=3, Low=4, Lowest=5, other=6, and is
stable: for every rank value `k`, the output's records of rank `k` are the
input's records of rank `k` in their original relative order. -/
theorem sort_bugs_by_priority_sorted_and_stable (l : List BugRecord) :
    (∀ b : BugRecord, priorityRank b = rankSpec b.priority) ∧
    (sort_bugs_by_priority l).Pairwise
      (fun a b => priorityRank a ≤ priorityRank b) ∧
    (∀ k : Nat,
      (sort_bugs_by_priority l).filter (fun b => priorityRank b == k) =
        l.filter (fun b => priorityRank b == k)) :=
  ⟨priorityRank_eq_rankSpec, sortByRank_sorted priorityRank l,
    fun k => sortByRank_filter_rank priorityRank l k⟩

/-- C10: `sort_bugs_by_priority` returns a permutation of its input (same
records with the same multiplicities).  In this pure embedding — as in the
source, where `sorted` builds a new list and neither function writes to a
record — non-mutation of the input holds by construction. -/
theorem sort_bugs_by_priority_perm (l : List BugRecord) :
    (sort_bugs_by_priority l).Perm l :=
  sortByRank_perm priorityRank l

theorem bucket_sum (l : List BugRecord) :
    critical_age l + aging l + active l + recent l = l.length := by
  induction l with
  | nil => rfl
  | cons x xs ih =>
    simp only [critical_age, aging, active, recent, List.countP_cons,
      List.length_cons] at *
    by_cases h1 : 90 < x.aging.days_open <;>
      by_cases h2 : 30 < x.aging.days_open ∧ x.aging.days_open ≤ 90 <;>
      by_cases h3 : 7 < x.aging.days_open ∧ x.aging.days_open ≤ 30 <;>
      by_cases h4 : x.aging.days_open ≤ 7 <;>
      first
        | omega
        | (simp only [h1, h2, h3, h4, decide_eq_true_eq, if_pos, if_neg,
            decide_eq_false_iff_not, not_false_eq_true, not_true_eq_false];
           simp_all; omega)

/-- C5: the four age buckets are mutually exclusive and exhaustive, so the
footer counts sum to the total; the age indicator agrees with the bucket on
every day count, in particular 95 days is critical/red and 7 days is
recent/green. -/
theorem age_buckets_partition :
    (∀ l : List BugRecord,
      critical_age l + aging l + active l + recent l = l.length) ∧
    (∀ d : Int,
      ((90 < d) ↔ ageEmoji d = "🔴") ∧
      ((30 < d ∧ d ≤ 90) ↔ ageEmoji d = "🟠") ∧
      ((7 < d ∧ d ≤ 30) ↔ ageEmoji d = "🟡") ∧
      ((d ≤ 7) ↔ ageEmoji d = "🟢")) ∧
    (ageEmoji 95 = "🔴" ∧ 90 < (95 : Int)) ∧
    (ageEmoji 7 = "🟢" ∧ (7 : Int) ≤ 7) := by
  refine ⟨bucket_sum, ?_, by decide, by decide⟩
  intro d
  unfold ageEmoji
  refine ⟨?_, ?_, ?_, ?_⟩ <;> split_ifs <;> simp <;> omega

/-- C9: `format_slack_table` on an empty record list returns exactly
"No bugs found.", whatever the generation timestamp reads. -/
theorem format_slack_table_empty (nowStr : String) :
    format_slack_table [] nowStr = "No bugs found." := rfl

mutual
theorem extract_content_eq (n : AdfNode) (acc : List String) :
    extract_content n acc = acc ++ adfLeaves n := by
  cases n with
  | textNode s => simp [extract_content, adfLeaves]
  | containerNode cs =>
    simp [extract_content, adfLeaves, extract_content_list_eq cs acc]
  | otherNode => simp [extract_content, adfLeaves]
  | arrayNode items =>
    simp [extract_content, adfLeaves, extract_content_list_eq items acc]
  | scalarNode => simp [extract_content, adfLeaves]

theorem extract_content_list_eq (ns : List AdfNode) (acc : List String) :
    extract_content_list ns acc = acc ++ adfLeavesList ns := by
  cases ns with
  | nil => simp [extract_content_list, adfLeavesList]
  | cons n ns' =>
    simp [extract_content_list, adfLeavesList,
      extract_content_eq n acc, extract_content_list_eq ns' (acc ++ adfLeaves n)]
end

/-- C6: a plain-string body is extracted unchanged; an ADF body is
extracted as the depth-first pre-order sequence of its leaf `text` fields,
joined by single spaces. -/
theorem body_extraction_spec :
    (∀ s : String, bodyText (.str s) = s) ∧
    (∀ d : AdfNode, bodyText (.adf d) = pyJoinSpace (adfLeaves d)) := by
  refine ⟨fun s => rfl, fun d => ?_⟩
  simp [bodyText, extract_text_from_adf, extract_content_eq d []]

/-- C7: an empty comment list short-circuits to "No comments available."
independently of the external service; a service failure on a bug's prompt
yields "Failed to generate summary." for that bug; and each bug's summary
in the batch depends only on the service's answer to that bug's own prompt,
so one bug's failure cannot affect its siblings. -/
theorem summarize_comments_spec :
    (∀ (s₁ s₂ : String → Except String String) (key : String),
      summarize_comments s₁ key [] = "No comments available." ∧
      summarize_comments s₁ key [] = summarize_comments s₂ key []) ∧
    (∀ (service : String → Except String String) (key : String)
        (comments : List CommentRec) (e : String),
      comments ≠ [] →
      service (buildPrompt key comments) = .error e →
      summarize_comments service key comments = "Failed to generate summary.") ∧
    (∀ (s₁ s₂ : String → Except String String)
        (bugs : List (String × List CommentRec)) (i : Nat) (b : String × List CommentRec),
      bugs[i]? = some b →
      s₁ (buildPrompt b.1 b.2) = s₂ (buildPrompt b.1 b.2) →
      (processBugs s₁ bugs)[i]? = (processBugs s₂ bugs)[i]?) := by
  refine ⟨fun s₁ s₂ key => ⟨rfl, rfl⟩, ?_, ?_⟩
  · intro service key comments e hne herr
    simp [summarize_comments, hne, herr]
  · intro s₁ s₂ bugs i b hb hsv
    simp only [processBugs, List.getElem?_map, hb, Option.map_some]
    by_cases hne : b.2 = []
    · simp [summarize_comments, hne]
    · simp [summarize_comments, hne, hsv]

/-- Witness for C7 at concrete inputs: an always-failing service. -/
theorem summarize_comments_spec_witness :
    summarize_comments (fun _ => .error "boom") "BUG-1" [] =
      "No comments available." ∧
    summarize_comments (fun _ => .error "boom") "BUG-1"
      [⟨"alice", "2024-01-01", "hi"⟩] = "Failed to generate summary." ∧
    (processBugs (fun _ => .error "boom")
        [("BUG-1", [⟨"alice", "2024-01-01", "hi"⟩])])[0]? =
      (processBugs (fun p => if p = "" then .ok "empty" else .error "boom")
        [("BUG-1", [⟨"alice", "2024-01-01", "hi"⟩])])[0]? :=
  ⟨(summarize_comments_spec.1 (fun _ => .error "boom")
      (fun _ => .ok "s") "BUG-1").1,
   summarize_comments_spec.2.1 (fun _ => .error "boom") "BUG-1"
      [⟨"alice", "2024-01-01", "hi"⟩] "boom" (by decide) rfl,
   summarize_comments_spec.2.2 (fun _ => .error "boom")
      (fun p => if p = "" then .ok "empty" else .error "boom")
      [("BUG-1", [⟨"alice", "2024-01-01", "hi"⟩])] 0
      ("BUG-1", [⟨"alice", "2024-01-01", "hi"⟩]) rfl (by decide)⟩

theorem string_length_mk (l : List Char) : (String.mk l).length = l.length := rfl

theorem pyTake_length (s : String) (n : Nat) :
    (pyTake s n).length = min n s.length :=
  List.length_take n s.data

theorem pyTake_of_ge (s : String) (n : Nat) (h : s.length ≤ n) :
    pyTake s n = s := by
  have : s.data.length ≤ n := h
  simp [pyTake, List.take_of_length_le this]

theorem pyLjust_length (s : String) (w : Nat) :
    (pyLjust s w).length = max s.length w := by
  simp [pyLjust, String.length_append, string_length_mk]
  omega

theorem truncate18_long (s : String) (h : 18 < s.length) :
    truncate18 s = pyTake s 15 ++ "..." ∧ (truncate18 s).length = 18 := by
  have h3 : ("..." : String).length = 3 := rfl
  constructor
  · simp [truncate18, h]
  · simp [truncate18, h, String.length_append, pyTake_length, h3]
    omega

theorem truncate18_le (s : String) : (truncate18 s).length ≤ 18 := by
  by_cases h : 18 < s.length
  · exact (truncate18_long s h).2.le
  · simp only [truncate18, if_neg h]
    omega

theorem format_team_info_length (t : TeamInfo) :
    (format_team_info t).length ≤ 18 := by
  simp only [format_team_info]
  split_ifs with h1 h2
  · exact truncate18_le _
  · decide
  · exact truncate18_le _

/-- C8: the team-display string is the (truthy) team name, else the
comma-join of the components with the first two labels, else "N/A"; any
display string longer than 18 characters is truncated to its first 15
characters plus "...", exactly 18 characters; shorter ones pass through
unchanged; and the table cell pads the result to exactly 18 characters. -/
theorem format_team_info_spec (t : TeamInfo) :
    (∀ n, t.team_name = some n → n ≠ "" → format_team_info t = truncate18 n) ∧
    ((t.team_name = none ∨ t.team_name = some "") →
      format_team_info t =
        (if t.components ++ t.labels.take 2 = [] then "N/A"
         else truncate18 (pyJoinWith ", " (t.components ++ t.labels.take 2)))) ∧
    (∀ s : String, 18 < s.length →
      truncate18 s = pyTake s 15 ++ "..." ∧ (truncate18 s).length = 18) ∧
    (∀ s : String, s.length ≤ 18 → truncate18 s = s) ∧
    teamsCell t = pyLjust (format_team_info t) 18 ∧
    (teamsCell t).length = 18 := by
  refine ⟨?_, ?_, fun s hs => truncate18_long s hs, ?_, ?_, ?_⟩
  · intro n hn hne
    simp [format_team_info, teamNameTruthy, hn, hne]
  · intro h
    rcases h with h | h <;> simp [format_team_info, teamNameTruthy, h]
  · intro s hs
    simp only [truncate18, if_neg (by omega : ¬ 18 < s.length)]
  · unfold teamsCell
    rw [pyTake_of_ge _ _ (format_team_info_length t)]
  · unfold teamsCell
    rw [pyTake_of_ge _ _ (format_team_info_length t), pyLjust_length]
    have := format_team_info_length t
    omega

/-- Witness for C8: a 26-character team name is truncated to 18. -/
theorem format_team_info_spec_witness :
    format_team_info ⟨some "CBP Ninja Quality Platform", [], []⟩ =
      truncate18 "CBP Ninja Quality Platform" ∧
    truncate18 "CBP Ninja Quality Platform" =
      pyTake "CBP Ninja Quality Platform" 15 ++ "..." ∧
    format_team_info ⟨none, ["payments"], ["qa", "infra", "x"]⟩ =
      truncate18 (pyJoinWith ", " ["payments", "qa", "infra"]) :=
  ⟨(format_team_info_spec ⟨some "CBP Ninja Quality Platform", [], []⟩).1
      "CBP Ninja Quality Platform" rfl (by decide),
   ((format_team_info_spec ⟨some "CBP Ninja Quality Platform", [], []⟩).2.2.1
      "CBP Ninja Quality Platform" (by decide)).1,
   by
    have h := (format_team_info_spec ⟨none, ["payments"], ["qa", "infra", "x"]⟩).2.1
      (Or.inl rfl)
    simpa using h⟩

/-- C3 (amended): the Last Update cell is the "Unknown" padding exactly
when the last-updated value is absent or empty; a parseable value renders
as `YYYY-MM-DD`; an unparseable non-empty value renders as its own first
10 characters (not as "Unknown"). -/
theorem lastUpdatedCell_spec (lu : Option String) :
    (lu = none → lastUpdatedCell lu = "Unknown   ") ∧
    (lu = some "" → lastUpdatedCell lu = "Unknown   ") ∧
    (∀ s t, lu = some s → s ≠ "" →
      datetime_fromisoformat (pyReplace s "Z" "+00:00") = some t →
      lastUpdatedCell lu = strftimeYMD t) ∧
    (∀ s, lu = some s → s ≠ "" →
      datetime_fromisoformat (pyReplace s "Z" "+00:00") = none →
      lastUpdatedCell lu = pyTake s 10) := by
  refine ⟨?_, ?_, ?_, ?_⟩
  · intro h; simp [lastUpdatedCell, h]
  · intro h; simp [lastUpdatedCell, h]
  · intro s t hs hne hp
    subst hs
    simp [lastUpdatedCell, hne, hp]
  · intro s hs hne hp
    subst hs
    simp [lastUpdatedCell, hne, hp]

/-- C3 counterexample: an unparseable, non-empty last-updated value is
rendered as its first 10 characters, not as the "Unknown" padding the
claim requires. -/
theorem lastUpdatedCell_counterexample :
    datetime_fromisoformat (pyReplace "garbage-value" "Z" "+00:00") = none ∧
    lastUpdatedCell (some "garbage-value") = "garbage-va" ∧
    lastUpdatedCell (some "garbage-value") ≠ "Unknown   " := by decide

/-- Witness for C3 at concrete inputs. -/
theorem lastUpdatedCell_spec_witness :
    lastUpdatedCell (some "2024-01-15T10:30:00.000+0000") = "2024-01-15" ∧
    lastUpdatedCell (some "oops") = pyTake "oops" 10 ∧
    lastUpdatedCell none = "Unknown   " :=
  ⟨(lastUpdatedCell_spec (some "2024-01-15T10:30:00.000+0000")).2.2.1
      "2024-01-15T10:30:00.000+0000" ⟨2024, 1, 15, 10, 30, 0, 0, some 0⟩
      rfl (by decide) (by decide),
   (lastUpdatedCell_spec (some "oops")).2.2.2 "oops" rfl (by decide) (by decide),
   (lastUpdatedCell_spec none).1 rfl⟩

/-- C2 (amended): `calculate_bug_aging` returns 0 on any unparseable (or
offset-less, hence naive) created date and never raises; on an aware parse
it returns the floor of the elapsed time in days — non-negative whenever
the creation instant is not in the future of `now_us`, but negative for a
creation instant after `now_us`. -/
theorem calculate_bug_aging_spec (created_date : String) (now_us : Int) :
    (datetime_fromisoformat (pyReplace created_date "Z" "+00:00") = none →
      calculate_bug_aging created_date now_us = 0) ∧
    (∀ t, datetime_fromisoformat (pyReplace created_date "Z" "+00:00") = some t →
      (t.tzOffsetMinutes = none → calculate_bug_aging created_date now_us = 0) ∧
      (t.tzOffsetMinutes ≠ none →
        calculate_bug_aging created_date now_us * usPerDay ≤
            now_us - pyTimestampUs t ∧
        now_us - pyTimestampUs t <
            (calculate_bug_aging created_date now_us + 1) * usPerDay ∧
        (pyTimestampUs t ≤ now_us →
            0 ≤ calculate_bug_aging created_date now_us))) := by
  refine ⟨?_, ?_⟩
  · intro h; simp [calculate_bug_aging, h]
  · intro t ht
    refine ⟨?_, ?_⟩
    · intro hoff; simp [calculate_bug_aging, ht, hoff]
    · intro hoff
      obtain ⟨off, hoff'⟩ := Option.ne_none_iff_exists'.1 hoff
      have hcalc : calculate_bug_aging created_date now_us =
          Int.fdiv (now_us - pyTimestampUs t) usPerDay := by
        simp [calculate_bug_aging, ht, hoff']
      rw [hcalc, Int.fdiv_eq_ediv _ (by norm_num [usPerDay])]
      unfold usPerDay
      omega

/-- C2 counterexample: a creation timestamp one day after the current
instant (the Unix epoch) yields a negative day count. -/
theorem calculate_bug_aging_counterexample :
    calculate_bug_aging "1970-01-02T00:00:00+00:00" 0 = -1 ∧
    ((-1 : Int) < 0) := by decide

/-- Witness for C2 at concrete inputs. -/
theorem calculate_bug_aging_spec_witness :
    calculate_bug_aging "not a date" 0 = 0 ∧
    0 ≤ calculate_bug_aging "1970-01-02T00:00:00+00:00" (3 * usPerDay) :=
  ⟨(calculate_bug_aging_spec "not a date" 0).1 (by decide),
   (((calculate_bug_aging_spec "1970-01-02T00:00:00+00:00"
        (3 * usPerDay)).2 ⟨1970, 1, 2, 0, 0, 0, 0, some 0⟩
        (by decide)).2 (by decide)).2.2 (by decide)⟩

theorem strExt {a b : String} (h : a.data = b.data) : a = b := by
  cases a
  cases b
  exact congrArg String.mk h

theorem str_data_append (a b : String) : (a ++ b).data = a.data ++ b.data := rfl

theorem str_length_append (a b : String) :
    (a ++ b).length = a.length + b.length := by
  show (a.data ++ b.data).length = a.data.length + b.data.length
  exact List.length_append a.data b.data

theorem str_ne_empty_of_data_ne_nil {s : String} (h : s.data ≠ []) :
    s ≠ "" := by
  intro he
  subst he
  exact h rfl

theorem joinSp_nil : joinSp [] = "" := rfl

theorem joinSp_snoc (acc : List String) (w : String) :
    joinSp (acc ++ [w]) = joinSp acc ++ w ++ " " := by
  simp [joinSp, List.foldl_append]

theorem joinSp_single (w : String) : joinSp [w] = w ++ " " := by
  have h := joinSp_snoc [] w
  simpa [joinSp_nil] using h

theorem pySplitAux_good (cs : List Char) :
    ∀ cur, (∀ c ∈ cur, isPyWS c = false) → goodWords (pySplitAux cs cur) := by
  induction cs with
  | nil =>
    intro cur hcur
    cases cur with
    | nil => intro w hw; simp [pySplitAux] at hw
    | cons c t =>
      intro w hw
      simp [pySplitAux] at hw
      subst hw
      refine ⟨by simp, ?_⟩
      intro d hd
      have hd' : d ∈ t.reverse ++ [c] := hd
      rcases List.mem_append.1 hd' with h | h
      · exact hcur d (List.mem_cons_of_mem _ (List.mem_reverse.1 h))
      · rcases List.mem_singleton.1 h with rfl
        exact hcur _ (List.mem_cons_self _ _)
  | cons c cs ih =>
    intro cur hcur
    by_cases hws : isPyWS c = true
    · cases cur with
      | nil =>
        simpa [pySplitAux, hws] using ih [] (by simp)
      | cons x t =>
        intro w hw
        simp only [pySplitAux, hws, if_true] at hw
        rcases List.mem_cons.1 hw with rfl | hw'
        · refine ⟨by simp, ?_⟩
          intro d hd
          have hd' : d ∈ (x :: t).reverse := hd
          rw [List.mem_reverse] at hd'
          exact hcur d hd'
        · exact ih [] (by simp) w hw'
    · have hws' : isPyWS c = false := by
        cases h : isPyWS c
        · rfl
        · exact absurd h hws
      intro w hw
      simp only [pySplitAux, hws', Bool.false_eq_true, if_false] at hw
      refine ih (c :: cur) ?_ w hw
      intro d hd
      rcases List.mem_cons.1 hd with rfl | hd'
      · exact hws'
      · exact hcur d hd'

theorem pySplit_good (s : String) : goodWords (pySplit s) :=
  pySplitAux_good s.data [] (by simp)

theorem pyJoinSpace_cons_data (w : String) (rest : List String) :
    ∃ u, (pyJoinSpace (w :: rest)).data = w.data ++ u := by
  cases rest with
  | nil => exact ⟨[], by simp [pyJoinSpace]⟩
  | cons r t =>
    refine ⟨' ' :: (pyJoinSpace (r :: t)).data, ?_⟩
    show ((w ++ " ") ++ pyJoinSpace (r :: t)).data = _
    rw [str_data_append, str_data_append]
    simp

theorem pyJoinSpace_snoc (init : List String) (w : String) :
    pyJoinSpace (init ++ [w]) =
      if init = [] then w else pyJoinSpace init ++ " " ++ w := by
  induction init with
  | nil => simp [pyJoinSpace]
  | cons x init' ih =>
    rw [if_neg (by simp)]
    cases init' with
    | nil =>
      show pyJoinSpace [x, w] = pyJoinSpace [x] ++ " " ++ w
      rfl
    | cons y t =>
      show x ++ " " ++ pyJoinSpace ((y :: t) ++ [w]) =
        (x ++ " " ++ pyJoinSpace (y :: t)) ++ " " ++ w
      rw [ih, if_neg (show ¬(y :: t = []) by simp)]
      apply strExt
      simp [str_data_append]

theorem joinSp_eq_pyJoinSpace (acc : List String) (h : acc ≠ []) :
    joinSp acc = pyJoinSpace acc ++ " " := by
  induction acc using List.reverseRecOn with
  | nil => exact absurd rfl h
  | append_singleton init w ih =>
    rw [joinSp_snoc, pyJoinSpace_snoc]
    by_cases hi : init = []
    · subst hi
      rw [if_pos rfl, joinSp_nil]
      have h0 : "" ++ w = w := strExt rfl
      rw [h0]
    · rw [if_neg hi, ih hi]

theorem pyJoinSpace_head (w : String) (rest : List String)
    (hw : goodWord w) :
    ∃ c t, (pyJoinSpace (w :: rest)).data = c :: t ∧ isPyWS c = false := by
  obtain ⟨u, hu⟩ := pyJoinSpace_cons_data w rest
  rcases hd : w.data with _ | ⟨c, t'⟩
  · exact absurd hd hw.1
  · refine ⟨c, t' ++ u, ?_, ?_⟩
    · rw [hu, hd]; simp
    · exact hw.2 c (by rw [hd]; simp)

theorem pyJoinSpace_last (ws : List String) (hws : goodWords ws)
    (hne : ws ≠ []) :
    ∃ c t, (pyJoinSpace ws).data.reverse = c :: t ∧ isPyWS c = false := by
  rcases List.eq_nil_or_concat ws with rfl | ⟨init, w, rfl⟩
  · exact absurd rfl hne
  · have hw : goodWord w := hws w (by simp [List.concat_eq_append])
    have hsnoc := pyJoinSpace_snoc init w
    rcases hd : w.data.reverse with _ | ⟨c, t'⟩
    · exact absurd (by simpa using congrArg List.reverse hd) hw.1
    · have hc : isPyWS c = false := by
        refine hw.2 c ?_
        have : c ∈ w.data.reverse := by rw [hd]; simp
        exact List.mem_reverse.1 this
      by_cases hi : init = []
      · subst hi
        refine ⟨c, t', ?_, hc⟩
        simp only [List.concat_eq_append, List.nil_append]
        rw [show pyJoinSpace [w] = w from rfl, hd]
      · refine ⟨c, t' ++ (' ' :: (pyJoinSpace init).data.reverse), ?_, hc⟩
        simp only [List.concat_eq_append]
        rw [hsnoc, if_neg hi]
        rw [str_data_append, str_data_append]
        simp [hd]

theorem dropWhile_replicate_space (k : Nat) (l : List Char) :
    (List.replicate k ' ' ++ l).dropWhile isPyWS = l.dropWhile isPyWS := by
  induction k with
  | zero => simp
  | succ n ih =>
    rw [List.replicate_succ, List.cons_append, List.dropWhile_cons,
      if_pos (show isPyWS ' ' = true from rfl)]
    exact ih

/-- Stripping the space-padded join of split-produced words recovers the
join: the padding and nothing else is removed. -/
theorem dropWhile_replicate_space_nil (k : Nat) :
    (List.replicate k ' ' : List Char).dropWhile isPyWS = [] := by
  have h := dropWhile_replicate_space k ([] : List Char)
  simpa using h

theorem pyStrip_join_pad (ws : List String) (hws : goodWords ws) (k : Nat) :
    pyStrip (String.mk ((pyJoinSpace ws).data ++ List.replicate k ' ')) =
      pyJoinSpace ws := by
  cases ws with
  | nil =>
    apply strExt
    show ((((([] : List Char) ++ List.replicate k ' ').dropWhile
      isPyWS).reverse.dropWhile isPyWS).reverse) = []
    rw [List.nil_append, dropWhile_replicate_space_nil]
    rfl
  | cons w rest =>
    obtain ⟨c, t, hdata, hc⟩ :=
      pyJoinSpace_head w rest (hws w (by simp))
    obtain ⟨c2, t2, hrev, hc2⟩ :=
      pyJoinSpace_last (w :: rest) hws (by simp)
    unfold pyStrip
    rw [show (String.mk ((pyJoinSpace (w :: rest)).data ++
        List.replicate k ' ')).data =
      (pyJoinSpace (w :: rest)).data ++ List.replicate k ' ' from rfl]
    rw [hdata]
    rw [List.cons_append, List.dropWhile_cons, if_neg (by simp [hc])]
    rw [← List.cons_append, ← hdata]
    rw [List.reverse_append, List.reverse_replicate]
    rw [dropWhile_replicate_space]
    rw [hrev, List.dropWhile_cons, if_neg (by simp [hc2])]
    rw [← hrev, List.reverse_reverse]

theorem pyStrip_joinSp (acc : List String) (hacc : goodWords acc) :
    pyStrip (joinSp acc) = pyJoinSpace acc := by
  cases acc with
  | nil => rfl
  | cons a t =>
    rw [joinSp_eq_pyJoinSpace _ (by simp)]
    have : pyJoinSpace (a :: t) ++ " " =
        String.mk ((pyJoinSpace (a :: t)).data ++ List.replicate 1 ' ') := by
      apply strExt
      rw [str_data_append]
      rfl
    rw [this]
    exact pyStrip_join_pad (a :: t) hacc 1

theorem pyStrip_ljust_join (g : List String) (hg : goodWords g) (n : Nat) :
    pyStrip (pyLjust (pyJoinSpace g) n) = pyJoinSpace g := by
  unfold pyLjust
  have : pyJoinSpace g ++ String.mk (List.replicate (n - (pyJoinSpace g).length) ' ') =
      String.mk ((pyJoinSpace g).data ++
        List.replicate (n - (pyJoinSpace g).length) ' ') := by
    apply strExt
    rw [str_data_append]
  rw [this]
  exact pyStrip_join_pad g hg _

theorem pySplitAux_noWS (l : List Char) :
    ∀ cur, (∀ c ∈ l, isPyWS c = false) → (cur ≠ [] ∨ l ≠ []) →
      pySplitAux l cur = [String.mk (cur.reverse ++ l)] := by
  induction l with
  | nil =>
    intro cur _ hne
    rcases hne with h | h
    · cases cur with
      | nil => exact absurd rfl h
      | cons c t => simp [pySplitAux]
    · exact absurd rfl h
  | cons c t ih =>
    intro cur hl _
    have hc : isPyWS c = false := hl c (by simp)
    rw [show pySplitAux (c :: t) cur = pySplitAux t (c :: cur) from by
      simp [pySplitAux, hc]]
    rw [ih (c :: cur) (fun d hd => hl d (List.mem_cons_of_mem _ hd))
      (Or.inl (by simp))]
    simp

theorem pySplit_single (w : String) (hw : goodWord w) : pySplit w = [w] := by
  unfold pySplit
  rw [pySplitAux_noWS w.data [] hw.2 (Or.inr hw.1)]
  rfl

theorem pySplitAux_space_append (xs : List Char) :
    ∀ cur ys, pySplitAux (xs ++ ' ' :: ys) cur =
      pySplitAux xs cur ++ pySplitAux ys [] := by
  induction xs with
  | nil =>
    intro cur ys
    cases cur with
    | nil => simp [pySplitAux, show isPyWS ' ' = true from rfl]
    | cons c t => simp [pySplitAux, show isPyWS ' ' = true from rfl]
  | cons c t ih =>
    intro cur ys
    by_cases hc : isPyWS c = true
    · cases cur with
      | nil =>
        simp only [List.cons_append, pySplitAux, hc, if_true]
        exact ih [] ys
      | cons x u =>
        simp only [List.cons_append, pySplitAux, hc, if_true]
        exact congrArg (fun z => String.mk (x :: u).reverse :: z) (ih [] ys)
    · have hc' : isPyWS c = false := by
        cases h : isPyWS c
        · rfl
        · exact absurd h hc
      simp only [List.cons_append, pySplitAux, hc', Bool.false_eq_true,
        if_false]
      exact ih (c :: cur) ys

theorem pySplit_append_space (a b : String) :
    pySplit (a ++ " " ++ b) = pySplit a ++ pySplit b := by
  unfold pySplit
  have hdata : (a ++ " " ++ b).data = a.data ++ ' ' :: b.data := by
    rw [str_data_append, str_data_append]
    show (a.data ++ [' ']) ++ b.data = a.data ++ ' ' :: b.data
    simp
  rw [hdata]
  exact pySplitAux_space_append a.data [] b.data

theorem pySplit_pyJoinSpace : ∀ ws : List String, goodWords ws →
    pySplit (pyJoinSpace ws) = ws := by
  intro ws
  induction ws with
  | nil => intro _; rfl
  | cons w rest ih =>
    intro hws
    cases rest with
    | nil => exact pySplit_single w (hws w (by simp))
    | cons r t =>
      show pySplit (w ++ " " ++ pyJoinSpace (r :: t)) = w :: r :: t
      rw [pySplit_append_space, pySplit_single w (hws w (by simp)),
        ih (fun x hx => hws x (List.mem_cons_of_mem _ hx))]
      rfl

theorem pySplit_join_map (pieces : List String) :
    pySplit (pyJoinSpace pieces) = (pieces.map pySplit).flatten := by
  induction pieces with
  | nil => rfl
  | cons p rest ih =>
    cases rest with
    | nil => simp [pyJoinSpace]
    | cons q t =>
      show pySplit (p ++ " " ++ pyJoinSpace (q :: t)) = _
      rw [pySplit_append_space, ih]
      simp

/-- The refinement: running the source's string-level wrap loop on a
current line holding the words `acc` agrees with the word-level loop. -/
theorem wrapLoop_eq_wrapLoopW : ∀ ws : List String, goodWords ws →
    ∀ acc, goodWords acc →
      wrapLoop 100 ws (joinSp acc) = wrapLoopW 100 ws acc := by
  intro ws
  induction ws with
  | nil =>
    intro _ acc hacc
    cases acc with
    | nil => rfl
    | cons a t =>
      rw [show wrapLoopW 100 [] (a :: t) =
          [pyLjust (pyJoinSpace (a :: t)) 100] from by simp [wrapLoopW]]
      have hne : joinSp (a :: t) ≠ "" := by
        rw [joinSp_eq_pyJoinSpace _ (by simp)]
        apply str_ne_empty_of_data_ne_nil
        rw [str_data_append]
        simp
      rw [show wrapLoop 100 [] (joinSp (a :: t)) =
          [pyLjust (pyStrip (joinSp (a :: t))) 100] from by
        simp [wrapLoop, hne]]
      rw [pyStrip_joinSp _ hacc]
  | cons w ws' ih =>
    intro hws acc hacc
    have hw : goodWord w := hws w (by simp)
    have hws' : goodWords ws' := fun x hx => hws x (List.mem_cons_of_mem _ hx)
    show (if (joinSp acc).length + w.length + 1 ≤ 100 then
        wrapLoop 100 ws' (joinSp acc ++ w ++ " ")
      else pyLjust (pyStrip (joinSp acc)) 100 :: wrapLoop 100 ws' (w ++ " ")) =
      (if (joinSp acc).length + w.length + 1 ≤ 100 then
        wrapLoopW 100 ws' (acc ++ [w])
      else pyLjust (pyJoinSpace acc) 100 :: wrapLoopW 100 ws' [w])
    by_cases hcond : (joinSp acc).length + w.length + 1 ≤ 100
    · rw [if_pos hcond, if_pos hcond, ← joinSp_snoc]
      refine ih hws' (acc ++ [w]) ?_
      intro x hx
      rcases List.mem_append.1 hx with h | h
      · exact hacc x h
      · rcases List.mem_singleton.1 h with rfl
        exact hw
    · rw [if_neg hcond, if_neg hcond, pyStrip_joinSp _ hacc,
        show (w ++ " " : String) = joinSp [w] from (joinSp_single w).symm]
      rw [ih hws' [w] (by
        intro x hx
        rcases List.mem_singleton.1 hx with rfl
        exact hw)]

theorem pyJoinSpace_length_le (acc : List String)
    (h : (joinSp acc).length ≤ 101) : (pyJoinSpace acc).length ≤ 100 := by
  cases acc with
  | nil => exact Nat.le_of_lt (by decide)
  | cons a t =>
    rw [joinSp_eq_pyJoinSpace _ (by simp)] at h
    rw [str_length_append] at h
    have : (" " : String).length = 1 := rfl
    omega

theorem flush_line_length (acc : List String)
    (h : (joinSp acc).length ≤ 101) :
    (pyLjust (pyJoinSpace acc) 100).length = 100 := by
  rw [pyLjust_length]
  have := pyJoinSpace_length_le acc h
  omega

theorem joinSp_snoc_length (acc : List String) (w : String) :
    (joinSp (acc ++ [w])).length = (joinSp acc).length + w.length + 1 := by
  rw [joinSp_snoc, str_length_append, str_length_append]
  rfl

/-- Width invariant of the word-level loop: if every input word is at most
100 characters and the current line is at most 101 characters (its words
plus one trailing space), every emitted line is exactly 100 characters. -/
theorem wrapLoopW_width : ∀ ws acc : List String,
    (∀ w ∈ ws, w.length ≤ 100) → (joinSp acc).length ≤ 101 →
    ∀ line ∈ wrapLoopW 100 ws acc, line.length = 100 := by
  intro ws
  induction ws with
  | nil =>
    intro acc _ h101 line hline
    cases acc with
    | nil => simp [wrapLoopW] at hline
    | cons a t =>
      rw [show wrapLoopW 100 [] (a :: t) =
          [pyLjust (pyJoinSpace (a :: t)) 100] from by simp [wrapLoopW]] at hline
      rcases List.mem_singleton.1 hline with rfl
      exact flush_line_length _ h101
  | cons w ws' ih =>
    intro acc hshort h101 line hline
    have hw : w.length ≤ 100 := hshort w (by simp)
    have hshort' : ∀ x ∈ ws', x.length ≤ 100 :=
      fun x hx => hshort x (List.mem_cons_of_mem _ hx)
    rw [show wrapLoopW 100 (w :: ws') acc =
        (if (joinSp acc).length + w.length + 1 ≤ 100 then
          wrapLoopW 100 ws' (acc ++ [w])
        else pyLjust (pyJoinSpace acc) 100 :: wrapLoopW 100 ws' [w])
        from rfl] at hline
    by_cases hcond : (joinSp acc).length + w.length + 1 ≤ 100
    · rw [if_pos hcond] at hline
      refine ih (acc ++ [w]) hshort' ?_ line hline
      rw [joinSp_snoc_length]
      omega
    · rw [if_neg hcond] at hline
      rcases List.mem_cons.1 hline with rfl | hline'
      · exact flush_line_length _ h101
      · refine ih [w] hshort' ?_ line hline'
        rw [show ([w] : List String) = [] ++ [w] from rfl, joinSp_snoc_length]
        have : (joinSp []).length = 0 := rfl
        omega

/-- Word preservation of the word-level loop: splitting each emitted line
after stripping its padding and concatenating recovers all the words. -/
theorem wrapLoopW_words : ∀ ws acc : List String,
    goodWords ws → goodWords acc →
    ((wrapLoopW 100 ws acc).map (fun line => pySplit (pyStrip line))).flatten =
      acc ++ ws := by
  intro ws
  induction ws with
  | nil =>
    intro acc _ hacc
    cases acc with
    | nil => rfl
    | cons a t =>
      rw [show wrapLoopW 100 [] (a :: t) =
          [pyLjust (pyJoinSpace (a :: t)) 100] from by simp [wrapLoopW]]
      simp only [List.map_cons, List.map_nil, List.flatten_cons,
        List.flatten_nil]
      rw [pyStrip_ljust_join _ hacc, pySplit_pyJoinSpace _ hacc]
  | cons w ws' ih =>
    intro acc hws hacc
    have hw : goodWord w := hws w (by simp)
    have hws' : goodWords ws' := fun x hx => hws x (List.mem_cons_of_mem _ hx)
    rw [show wrapLoopW 100 (w :: ws') acc =
        (if (joinSp acc).length + w.length + 1 ≤ 100 then
          wrapLoopW 100 ws' (acc ++ [w])
        else pyLjust (pyJoinSpace acc) 100 :: wrapLoopW 100 ws' [w])
        from rfl]
    by_cases hcond : (joinSp acc).length + w.length + 1 ≤ 100
    · rw [if_pos hcond]
      rw [ih (acc ++ [w]) hws' (by
        intro x hx
        rcases List.mem_append.1 hx with h | h
        · exact hacc x h
        · rcases List.mem_singleton.1 h with rfl
          exact hw)]
      simp
    · rw [if_neg hcond]
      simp only [List.map_cons, List.flatten_cons]
      rw [ih [w] hws' (by
        intro x hx
        rcases List.mem_singleton.1 hx with rfl
        exact hw)]
      rw [pyStrip_ljust_join _ hacc, pySplit_pyJoinSpace _ hacc]
      simp

/-- C1 (amended): in the comment-summary table, when every word of the
summary is at most 100 characters every rendered line is exactly 100
characters (content plus padding) — a single word longer than 100
characters overflows its line, see the counterexample; and unconditionally,
stripping the wrapped lines of padding, joining them with single spaces and
splitting on whitespace recovers the summary's word sequence (the
"No summary available" placeholder replaces the lines only when the
summary has no words at all). -/
theorem wrap_width_and_words (summary_text : String) :
    ((∀ w ∈ pySplit summary_text, w.length ≤ 100) →
      ∀ line ∈ summaryLines summary_text, line.length = 100) ∧
    pySplit (pyJoinSpace ((wrapSummary summary_text).map pyStrip)) =
      pySplit summary_text := by
  have hgood := pySplit_good summary_text
  have hwrap : wrapSummary summary_text =
      wrapLoopW 100 (pySplit summary_text) [] := by
    unfold wrapSummary
    rw [show ("" : String) = joinSp [] from rfl]
    exact wrapLoop_eq_wrapLoopW _ hgood [] (by intro x hx; simp at hx)
  constructor
  · intro hshort line hline
    unfold summaryLines at hline
    rw [hwrap] at hline
    rcases hws : wrapLoopW 100 (pySplit summary_text) [] with _ | ⟨l0, ls⟩
    · rw [hws] at hline
      have hline' : line ∈ [pyLjust "No summary available" 100] := hline
      rcases List.mem_singleton.1 hline' with rfl
      decide
    · rw [hws] at hline
      have hline' : line ∈ l0 :: ls := hline
      rw [← hws] at hline'
      exact wrapLoopW_width _ [] hshort (by decide) line hline'
  · rw [hwrap, pySplit_join_map, List.map_map]
    exact wrapLoopW_words _ [] hgood (by intro x hx; simp at hx)

/-- C1 counterexample: a summary consisting of one 101-character word
yields an output line of 101 characters in the comment-summary table,
violating the 100-character width bound as universally claimed. -/
theorem wrap_width_counterexample :
    ∃ line ∈ summaryLines (String.mk (List.replicate 101 'a')),
      100 < line.length := by decide

/-- Witness for C1 at a concrete summary. -/
theorem wrap_width_and_words_witness :
    (∀ line ∈ summaryLines "root cause found and fix deployed",
      line.length = 100) ∧
    pySplit (pyJoinSpace
        ((wrapSummary "root cause found and fix deployed").map pyStrip)) =
      pySplit "root cause found and fix deployed" :=
  ⟨(wrap_width_and_words "root cause found and fix deployed").1 (by decide),
   (wrap_width_and_words "root cause found and fix deployed").2⟩

end JiraWf
